import Mathlib

set_option linter.dupNamespace false

/-!
Shallow embedding of the mealmatcher meal-selection core (src/validation.ts,
in its two historical versions) together with the entry-point wiring.

Modelling conventions:
- TypeScript numbers that the code only ever uses as non-negative integers
  (headcounts, minutes, quantities, shelf-life days) are embedded as `Nat`;
  signed intermediate values (`dayInWeek - deliveryDayInWeek`) are computed
  in `Int` exactly where JavaScript computes a possibly negative number.
- A `WeekDay.Date` string enters the code only through
  `new Date(date).getDay()`; the embedding therefore stores that `getDay()`
  value (0 = Sunday .. 6 = Saturday) directly in the `Date` field.
- `Math.random()`-driven choice in `rankMeals` is injected as an explicit
  index source `rand : Nat → Nat` (one draw per day, reduced modulo the
  candidate count exactly as `Math.floor(Math.random() * len)` lands in
  `[0, len)`); quantifying over `rand` covers every possible run.
- JavaScript object `plan[day.Day] = v` assignment is modelled by `planSet`
  on an association list keeping first-occurrence key order.
- `Array.prototype.sort` with comparator `(a, b) => k(b) - k(a)` (resp.
  `k(a) - k(b)`) is a stable sort for the total preorder `k b ≤ k a`
  (resp. `k a ≤ k b`); a stable sort of a total preorder is unique, so it
  is embedded as `List.insertionSort` over that relation.

The strict variant (`matchMeals` file) lives in namespace `Strict`, the
rich variant (`rankMeals` file) in namespace `Rich`; definitions shared
verbatim by both files are at top level.
-/

/-- `Meal` row from the catalog (src/types/index.ts). -/
structure Meal where
  Slug : String
  Meal : String
  PreparationTimeMinutes : Nat
  CanBeLeftovers : Bool
  NumberOfPeople : Nat
deriving DecidableEq, Repr

/-- `Product` (ingredient) row from the catalog (src/types/index.ts), plus
the `URL` field the rich variant reads from the spreadsheet rows. -/
structure Product where
  Meal : String
  Quantity : Nat
  MaxShelfLifeInDays : Nat
  IsBonusRequired : Bool
  ID : String
  URL : String
deriving DecidableEq, Repr

/-- `WeekDay` row (src/types/index.ts); `Date` stores the JavaScript
`new Date(dateString).getDay()` value, 0 = Sunday .. 6 = Saturday. -/
structure WeekDay where
  Day : String
  Date : Nat
  NumberOfPeople : Nat
  NumberOfPeopleLeftovers : Nat
  MaxPreparationTime : Nat
deriving DecidableEq, Repr

/-- Ascending comparison by a `Nat` key: the total preorder sorted by the
JavaScript comparator `(a, b) => k(a) - k(b)`. -/
def byKeyLe {α : Type} (k : α → Nat) (a b : α) : Prop :=
  k a ≤ k b

/-- Descending comparison by a `Nat` key: the total preorder sorted by the
JavaScript comparator `(a, b) => k(b) - k(a)`. -/
def byKeyGe {α : Type} (k : α → Nat) (a b : α) : Prop :=
  k b ≤ k a

instance {α : Type} (k : α → Nat) : DecidableRel (byKeyLe k) :=
  fun a b => Nat.decLe (k a) (k b)

instance {α : Type} (k : α → Nat) : DecidableRel (byKeyGe k) :=
  fun a b => Nat.decLe (k b) (k a)

instance {α : Type} (k : α → Nat) : IsTotal α (byKeyLe k) :=
  ⟨fun a b => Nat.le_total (k a) (k b)⟩

instance {α : Type} (k : α → Nat) : IsTotal α (byKeyGe k) :=
  ⟨fun a b => Nat.le_total (k b) (k a)⟩

instance {α : Type} (k : α → Nat) : IsTrans α (byKeyLe k) :=
  ⟨fun _ _ _ hab hbc => Nat.le_trans hab hbc⟩

instance {α : Type} (k : α → Nat) : IsTrans α (byKeyGe k) :=
  ⟨fun _ _ _ hab hbc => Nat.le_trans hbc hab⟩

/-- `Math.ceil (a / b)` on non-negative integers with `b > 0`. -/
def ceilDiv (a b : Nat) : Nat :=
  (a + b - 1) / b

/-- The quantity multiplier computed inside `getRequiredProductsForMeal`:
`Math.ceil((flag ? day.NumberOfPeople + day.NumberOfPeopleLeftovers
: meal.NumberOfPeople) / meal.NumberOfPeople)`. -/
def multiplier (day : WeekDay) (meal : Meal) (flag : Bool) : Nat :=
  ceilDiv
    (if flag then day.NumberOfPeople + day.NumberOfPeopleLeftovers
     else meal.NumberOfPeople)
    meal.NumberOfPeople

/-- The per-product body of `getRequiredProductsForMeal`:
`{...p, Quantity: p.Quantity * multiplier}`. -/
def scaleProduct (day : WeekDay) (meal : Meal) (flag : Bool) (p : Product) :
    Product :=
  { p with Quantity := p.Quantity * multiplier day meal flag }

/-- `isPreparationTimeValid` (identical in both source versions). -/
def isPreparationTimeValid (meal : Meal) (day : WeekDay) : Bool :=
  meal.PreparationTimeMinutes ≤ day.MaxPreparationTime

/-- `isMealLeftoverValid` (identical in both source versions). -/
def isMealLeftoverValid (day : WeekDay) (meal : Meal) : Bool :=
  day.Day != "Sunday" ||
    (decide (day.NumberOfPeopleLeftovers > 0) && meal.CanBeLeftovers)

/-- `sortWeekByPreparationTime`: `week.sort((a, b) =>
a.MaxPreparationTime - b.MaxPreparationTime)`. -/
def sortWeekByPreparationTime (week : List WeekDay) : List WeekDay :=
  List.insertionSort (byKeyLe (fun d => d.MaxPreparationTime)) week

namespace Strict

/-- Strict variant `getRequiredProductsForMeal`: filters the catalog to the
meal's products, then scales each `Quantity`. -/
def getRequiredProductsForMeal (day : WeekDay) (meal : Meal)
    (products : List Product) (flag : Bool) : List Product :=
  (products.filter fun p => p.Meal == meal.Slug).map (scaleProduct day meal flag)

/-- Strict variant `isRequiredProductDiscountsValid`:
`productsRequired.some(p => p.IsBonusRequired &&
!bonusProductIds.includes(p.ID.toString()))`. -/
def isRequiredProductDiscountsValid (productsRequired : List Product)
    (bonusProductIds : List String) : Bool :=
  productsRequired.any fun p =>
    p.IsBonusRequired && !(bonusProductIds.contains p.ID)

/-- Strict variant `isProductShelfLifeValid`: every product must satisfy
`p.MaxShelfLifeInDays >= dayInWeek - 2`, with no escape for a zero/absent
shelf life. `getDay` is the JavaScript `getDay()` value of the date. -/
def isProductShelfLifeValid (productsRequired : List Product)
    (getDay : Nat) : Bool :=
  let dayInWeek : Nat := if getDay = 0 then 7 else getDay
  productsRequired.all fun p =>
    decide ((p.MaxShelfLifeInDays : Int) ≥ (dayInWeek : Int) - 2)

/-- The filter predicate of `matchMeals` step 1 for one meal on one day. -/
def mealMatchesDay (bonusProductIds : List String) (products : List Product)
    (day : WeekDay) (meal : Meal) : Bool :=
  let productsRequired :=
    getRequiredProductsForMeal day meal products (isMealLeftoverValid day meal)
  isPreparationTimeValid meal day &&
    isMealLeftoverValid day meal &&
    isRequiredProductDiscountsValid productsRequired bonusProductIds &&
    isProductShelfLifeValid productsRequired day.Date

/-- The score of `matchMeals` step 2: the number of required products whose
ID is in the bonus list. -/
def mealScore (bonusProductIds : List String) (products : List Product)
    (day : WeekDay) (meal : Meal) : Nat :=
  let productsRequired :=
    getRequiredProductsForMeal day meal products (isMealLeftoverValid day meal)
  (productsRequired.filter fun p => bonusProductIds.contains p.ID).length

/-- One loop iteration of `matchMeals`: filter, score, sort descending by
score, push the first match (or `null`). -/
def matchMealsDay (meals : List Meal) (bonusProductIds : List String)
    (products : List Product) (day : WeekDay) : Option Meal :=
  let cands :=
    List.insertionSort (byKeyGe fun x => x.2)
      ((meals.filter (mealMatchesDay bonusProductIds products day)).map
        fun meal => (meal, mealScore bonusProductIds products day meal))
  match cands with
  | [] => none
  | top :: _ => some top.1

/-- Strict variant `matchMeals`: one positional entry per week day. -/
def matchMeals (meals : List Meal) (bonusProductIds : List String)
    (products : List Product) (weekPlan : List WeekDay) : List (Option Meal) :=
  weekPlan.map (matchMealsDay meals bonusProductIds products)

end Strict

/-- Hexadecimal digit character (uppercase), as used by the WHATWG
`application/x-www-form-urlencoded` serializer. -/
def hexDigitChar (n : Nat) : Char :=
  if n < 10 then Char.ofNat (48 + n) else Char.ofNat (55 + n)

/-- UTF-8 code units of a character, as a list of byte values. -/
def utf8Bytes (c : Char) : List Nat :=
  let n := c.toNat
  if n < 128 then [n]
  else if n < 2048 then [192 + n / 64, 128 + n % 64]
  else if n < 65536 then [224 + n / 4096, 128 + n / 64 % 64, 128 + n % 64]
  else [240 + n / 262144, 128 + n / 4096 % 64, 128 + n / 64 % 64, 128 + n % 64]

/-- `%HH` percent-escape of one byte. -/
def percentEncodeByte (b : Nat) : String :=
  String.mk ['%', hexDigitChar (b / 16), hexDigitChar (b % 16)]

/-- Characters the `application/x-www-form-urlencoded` serializer leaves
unescaped: ASCII alphanumerics and `*`, `-`, `.`, `_`. -/
def isFormUnreserved (c : Char) : Bool :=
  c.isAlphanum || c == '*' || c == '-' || c == '.' || c == '_'

/-- One character under `application/x-www-form-urlencoded`: unreserved
characters stand for themselves, space becomes `+`, everything else is
percent-escaped per UTF-8 byte. -/
def formUrlEncodeChar (c : Char) : String :=
  if isFormUnreserved c then String.singleton c
  else if c == ' ' then "+"
  else String.join ((utf8Bytes c).map percentEncodeByte)

/-- `URLSearchParams` serialization of one string. -/
def formUrlEncode (s : String) : String :=
  String.join (s.toList.map formUrlEncodeChar)

/-- The part of the WHATWG `URL` object the code exercises: a fixed base
with a list of search parameters appended in order. -/
structure URLModel where
  base : String
  searchParams : List (String × String)
deriving DecidableEq, Repr

/-- `url.searchParams.append(k, v)`. -/
def URLModel.appendParam (u : URLModel) (k v : String) : URLModel :=
  { u with searchParams := u.searchParams ++ [(k, v)] }

/-- `url.toString()`: the base followed, when any parameter exists, by `?`
and the `&`-joined form-url-encoded `key=value` pairs. -/
def URLModel.render (u : URLModel) : String :=
  if u.searchParams.isEmpty then u.base
  else
    u.base ++ "?" ++
      String.intercalate "&"
        (u.searchParams.map fun kv => formUrlEncode kv.1 ++ "=" ++ formUrlEncode kv.2)

namespace Rich

/-- Rich variant `getRequiredProductsForMeal`: the caller pre-filters the
ingredients, so it only maps the quantity scaling over them. -/
def getRequiredProductsForMeal (day : WeekDay) (meal : Meal)
    (ingredients : List Product) (flag : Bool) : List Product :=
  ingredients.map (scaleProduct day meal flag)

/-- Rich variant `isRequiredProductDiscountsValid`: every ingredient with
`IsBonusRequired` must have its ID in the bonus list. -/
def isRequiredProductDiscountsValid (ingredients : List Product)
    (bonusProductIds : List String) : Bool :=
  (ingredients.filter fun p => p.IsBonusRequired).all fun p =>
    bonusProductIds.contains p.ID

/-- Rich variant `isProductShelfLifeValid`: a falsy (zero/absent)
`MaxShelfLifeInDays` passes unconditionally, otherwise it must be at least
`dayInWeek - 2`. `getDay` is the JavaScript `getDay()` value of the date. -/
def isProductShelfLifeValid (productsRequired : List Product)
    (getDay : Nat) : Bool :=
  let dayInWeek : Nat := if getDay = 0 then 7 else getDay
  productsRequired.all fun p =>
    (p.MaxShelfLifeInDays == 0) ||
      decide ((p.MaxShelfLifeInDays : Int) ≥ (dayInWeek : Int) - 2)

/-- `hasIngredients`: the product list is non-empty. -/
def hasIngredients (productsRequired : List Product) : Bool :=
  decide (productsRequired.length > 0)

/-- `createShoppingList`: build the `https://www.ah.nl/mijnlijst/add-multiple`
URL, appending a `p=ID:Quantity` search parameter per required product. -/
def createShoppingList (productsRequired : List Product) : String :=
  (productsRequired.foldl
      (fun (u : URLModel) p => u.appendParam "p" (p.ID ++ ":" ++ toString p.Quantity))
      ⟨"https://www.ah.nl/mijnlijst/add-multiple", []⟩).render

/-- A committed plan entry: the spread `{...meal, productsRequired,
productsDiscounted, shoppingList}` built in `rankMeals` step 2. -/
structure RankedMeal where
  meal : Meal
  productsRequired : List Product
  productsDiscounted : List String
  shoppingList : String
deriving DecidableEq, Repr

/-- The `plan` object of `rankMeals`: day name keys in first-insertion
order, each holding a committed meal or `null`. -/
abbrev Plan := List (String × Option RankedMeal)

/-- JavaScript `plan[key] = v`: replace the value at an existing key in
place, otherwise append the key. -/
def planSet : Plan → String → Option RankedMeal → Plan
  | [], k, v => [(k, v)]
  | (k0, v0) :: rest, k, v =>
    if k0 = k then (k0, v) :: rest else (k0, v0) :: planSet rest k v

/-- `isNotInPlan`: the meal's slug is not among the non-null plan values. -/
def isNotInPlan (meal : Meal) (plan : Plan) : Bool :=
  !((plan.filterMap Prod.snd).any fun m => m.meal.Slug == meal.Slug)

/-- Step 0 of one `rankMeals` day: pair each meal with its catalog
ingredients (`products.filter(p => p.Meal === meal.Slug)`). -/
def pairedMeals (meals : List Meal) (products : List Product) :
    List (Meal × List Product) :=
  meals.map fun meal => (meal, products.filter fun p => p.Meal == meal.Slug)

/-- Step 1 of one `rankMeals` day, for one `(meal, ingredients)` pair: the
conjunction of the six per-day conditions. -/
def survivesDay (bonusProductIds : List String) (day : WeekDay)
    (plan : Plan) (x : Meal × List Product) : Bool :=
  let productsRequired :=
    getRequiredProductsForMeal day x.1 x.2 (isMealLeftoverValid day x.1)
  hasIngredients x.2 &&
    isNotInPlan x.1 plan &&
    isPreparationTimeValid x.1 day &&
    isMealLeftoverValid day x.1 &&
    isRequiredProductDiscountsValid productsRequired bonusProductIds &&
    isProductShelfLifeValid productsRequired day.Date

/-- Step 2 of one `rankMeals` day: build the enriched committed entry and
its score (the number of required products currently in the bonus list). -/
def scoreEntry (bonusProductIds : List String) (day : WeekDay)
    (x : Meal × List Product) : RankedMeal × Nat :=
  let productsRequired :=
    getRequiredProductsForMeal day x.1 x.2 (isMealLeftoverValid day x.1)
  let productsDiscounted :=
    productsRequired.filter fun p => bonusProductIds.contains p.ID
  ({ meal := x.1
     productsRequired := productsRequired
     productsDiscounted := productsDiscounted.map fun p => p.URL
     shoppingList := createShoppingList productsRequired },
   productsDiscounted.length)

/-- Steps 0-3 of one `rankMeals` day: pair, sort by preparation time
descending, filter against the current plan, score, sort by score
descending. -/
def dayCandidates (meals : List Meal) (bonusProductIds : List String)
    (products : List Product) (day : WeekDay) (plan : Plan) :
    List (RankedMeal × Nat) :=
  List.insertionSort (byKeyGe fun x => x.2)
    (((List.insertionSort (byKeyGe fun x => x.1.PreparationTimeMinutes)
          (pairedMeals meals products)).filter
        (survivesDay bonusProductIds day plan)).map
      (scoreEntry bonusProductIds day))

/-- The commitment of one `rankMeals` day: `null` without survivors, the
top-scored entry when its score is positive, otherwise the entry at the
random index (one `Math.floor(Math.random() * cands.length)` draw). -/
def rankMealsDay (meals : List Meal) (bonusProductIds : List String)
    (products : List Product) (day : WeekDay) (plan : Plan)
    (randIndex : Nat) : Option RankedMeal :=
  match dayCandidates meals bonusProductIds products day plan with
  | [] => none
  | top :: rest =>
    if 0 < top.2 then some top.1
    else
      some (((top :: rest).get
        ⟨randIndex % (top :: rest).length, Nat.mod_lt _ (Nat.succ_pos _)⟩).1)

/-- The `for (const day of weekPlan)` loop of `rankMeals`, threading the
accumulated plan; `i` indexes the per-day random draw. -/
def rankMealsGo (meals : List Meal) (bonusProductIds : List String)
    (products : List Product) :
    List WeekDay → Plan → (Nat → Nat) → Nat → Plan
  | [], plan, _, _ => plan
  | day :: rest, plan, rand, i =>
    rankMealsGo meals bonusProductIds products rest
      (planSet plan day.Day
        (rankMealsDay meals bonusProductIds products day plan (rand i)))
      rand (i + 1)

/-- Rich variant `rankMeals`, with the random source made explicit. -/
def rankMeals (meals : List Meal) (bonusProductIds : List String)
    (products : List Product) (weekPlan : List WeekDay)
    (rand : Nat → Nat) : Plan :=
  rankMealsGo meals bonusProductIds products weekPlan [] rand 0

end Rich

/-- The slugs of the non-null entries of a plan, in entry order. -/
def planSlugs : Rich.Plan → List String
  | [] => []
  | (_, none) :: rest => planSlugs rest
  | (_, some rm) :: rest => rm.meal.Slug :: planSlugs rest

/-- The largest score occurring in a candidate list (0 when empty). -/
def maxScore (cands : List (Rich.RankedMeal × Nat)) : Nat :=
  (cands.map Prod.snd).foldr max 0

/-- Concrete meal fixture: calibrated for two people, quick to prepare. -/
def mealFx : Meal :=
  { Slug := "lasagna", Meal := "Lasagna", PreparationTimeMinutes := 10,
    CanBeLeftovers := false, NumberOfPeople := 2 }

/-- Concrete ingredient fixture with no discount requirement and no
shelf-life constraint. -/
def productFxFree : Product :=
  { Meal := "lasagna", Quantity := 1, MaxShelfLifeInDays := 0,
    IsBonusRequired := false, ID := "1", URL := "u1" }

/-- Concrete ingredient fixture that requires a discount. -/
def productFxBonus : Product :=
  { Meal := "lasagna", Quantity := 1, MaxShelfLifeInDays := 5,
    IsBonusRequired := true, ID := "7", URL := "u7" }

/-- Concrete week-day fixture: a Monday (`getDay` 1) with a generous
preparation-time budget. -/
def mondayFx : WeekDay :=
  { Day := "Monday", Date := 1, NumberOfPeople := 2,
    NumberOfPeopleLeftovers := 0, MaxPreparationTime := 30 }

example :
    Rich.rankMeals [mealFx] [] [productFxFree] [mondayFx] (fun _ => 0) =
      [("Monday",
        some { meal := mealFx
               productsRequired := [productFxFree]
               productsDiscounted := []
               shoppingList :=
                 "https://www.ah.nl/mijnlijst/add-multiple?p=1%3A1" })] := by
  decide

example :
    Strict.matchMeals [mealFx] [] [productFxBonus] [mondayFx] =
      [some mealFx] := by
  decide

example :
    Strict.isRequiredProductDiscountsValid
      [{ Meal := "a", Quantity := 1, MaxShelfLifeInDays := 5,
         IsBonusRequired := true, ID := "7", URL := "" }] [] = true := by
  decide

example :
    Strict.isProductShelfLifeValid
      [{ Meal := "a", Quantity := 1, MaxShelfLifeInDays := 0,
         IsBonusRequired := false, ID := "7", URL := "" }] 4 = false := by
  decide

example :
    Rich.createShoppingList
      [{ Meal := "a", Quantity := 2, MaxShelfLifeInDays := 0,
         IsBonusRequired := false, ID := "17", URL := "" }] =
      "https://www.ah.nl/mijnlijst/add-multiple?p=17%3A2" := by
  decide

/-- `isoWeekdayNumber`, as the specification words it: Sunday maps to 7,
Monday..Saturday to 1..6.  The argument is the JavaScript `getDay()`
value of the date. -/
def isoWeekdayNumber (getDay : Nat) : Int :=
  if getDay = 0 then 7 else getDay

/-- The ingredient with its `Quantity` field erased, for stating that the
quantity resolver touches no other field. -/
def eraseQuantity (p : Product) : Product :=
  { p with Quantity := 0 }

theorem eraseQuantity_scaleProduct (day : WeekDay) (meal : Meal) (f : Bool)
    (p : Product) : eraseQuantity (scaleProduct day meal f p) = eraseQuantity p := by
  cases p
  rfl

theorem ceilDiv_eq_ceil (a b : Nat) (hb : 0 < b) :
    ceilDiv a b = ⌈(a : ℚ) / (b : ℚ)⌉₊ := by
  have hq : (0 : ℚ) < (b : ℚ) := by exact_mod_cast hb
  apply le_antisymm
  · have h1 : (a : ℚ) / b ≤ (⌈(a : ℚ) / (b : ℚ)⌉₊ : ℚ) := Nat.le_ceil _
    have h2 : (a : ℚ) ≤ (⌈(a : ℚ) / (b : ℚ)⌉₊ : ℚ) * b := (div_le_iff₀ hq).mp h1
    have h3 : a ≤ ⌈(a : ℚ) / (b : ℚ)⌉₊ * b := by exact_mod_cast h2
    have h4 : a + b - 1 < (⌈(a : ℚ) / (b : ℚ)⌉₊ + 1) * b := by
      have h5 : (⌈(a : ℚ) / (b : ℚ)⌉₊ + 1) * b = ⌈(a : ℚ) / (b : ℚ)⌉₊ * b + b :=
        Nat.succ_mul _ _
      omega
    exact Nat.lt_succ_iff.mp ((Nat.div_lt_iff_lt_mul hb).mpr h4)
  · rw [Nat.ceil_le, div_le_iff₀ hq]
    have h5 := Nat.div_add_mod (a + b - 1) b
    have h6 := Nat.mod_lt (a + b - 1) hb
    have key : a ≤ b * ((a + b - 1) / b) := by
      generalize b * ((a + b - 1) / b) = t at h5 ⊢
      omega
    calc (a : ℚ) ≤ ((b * ((a + b - 1) / b) : Nat) : ℚ) := by exact_mod_cast key
      _ = ((((a + b - 1) / b : Nat) : ℚ)) * b := by push_cast; ring

theorem ceilDiv_self (b : Nat) (hb : 0 < b) : ceilDiv b b = 1 := by
  unfold ceilDiv
  rw [Nat.div_eq_of_lt_le] <;> omega

/-- C1: the claim reads "in the strict variant `matchMeals`, a meal is
retained for a day only if every one of its bonus-required ingredients has
its identifier in the discount set".  The code does the opposite of its
own README rule: with an empty discount set, the single meal whose only
ingredient is bonus-required and undiscounted is committed, while with
that ingredient discounted the meal is rejected. -/
theorem matchMeals_retains_undiscounted_bonus_meal :
    Strict.matchMeals [mealFx] [] [productFxBonus] [mondayFx] = [some mealFx] ∧
    productFxBonus.IsBonusRequired = true ∧
    productFxBonus.ID ∉ ([] : List String) ∧
    Strict.matchMeals [mealFx] [productFxBonus.ID] [productFxBonus] [mondayFx] =
      [none] := by
  refine ⟨by decide, by decide, by decide, by decide⟩

/-- C4: `getRequiredProductsForMeal` (both variants) scales each retained
ingredient's `Quantity` by `⌈effectiveHeadcount / meal.NumberOfPeople⌉`,
where the effective headcount is `day.NumberOfPeople +
day.NumberOfPeopleLeftovers` when the leftover flag is set and
`meal.NumberOfPeople` otherwise; with the flag unset the rich variant
returns its input unchanged. -/
theorem getRequiredProductsForMeal_scales_by_ceil (day : WeekDay) (meal : Meal)
    (ingredients products : List Product) (f : Bool)
    (h : 0 < meal.NumberOfPeople) :
    (Rich.getRequiredProductsForMeal day meal ingredients f =
      ingredients.map fun p =>
        { p with Quantity := p.Quantity *
            ⌈((if f then day.NumberOfPeople + day.NumberOfPeopleLeftovers
               else meal.NumberOfPeople : Nat) : ℚ) /
              (meal.NumberOfPeople : ℚ)⌉₊ }) ∧
    (Strict.getRequiredProductsForMeal day meal products f =
      (products.filter fun p => p.Meal == meal.Slug).map fun p =>
        { p with Quantity := p.Quantity *
            ⌈((if f then day.NumberOfPeople + day.NumberOfPeopleLeftovers
               else meal.NumberOfPeople : Nat) : ℚ) /
              (meal.NumberOfPeople : ℚ)⌉₊ }) ∧
    (f = false → Rich.getRequiredProductsForMeal day meal ingredients f =
      ingredients) := by
  have hmul : multiplier day meal f =
      ⌈((if f then day.NumberOfPeople + day.NumberOfPeopleLeftovers
         else meal.NumberOfPeople : Nat) : ℚ) / (meal.NumberOfPeople : ℚ)⌉₊ := by
    rw [multiplier, ceilDiv_eq_ceil _ _ h]
  have hscale : ∀ p, scaleProduct day meal f p =
      { p with Quantity := p.Quantity *
          ⌈((if f then day.NumberOfPeople + day.NumberOfPeopleLeftovers
             else meal.NumberOfPeople : Nat) : ℚ) /
            (meal.NumberOfPeople : ℚ)⌉₊ } := by
    intro p
    rw [scaleProduct, hmul]
  refine ⟨?_, ?_, ?_⟩
  · rw [Rich.getRequiredProductsForMeal]
    exact List.map_congr_left fun p _ => hscale p
  · rw [Strict.getRequiredProductsForMeal]
    exact List.map_congr_left fun p _ => hscale p
  · intro hf
    subst hf
    have h1 : multiplier day meal false = 1 := by
      rw [multiplier]
      exact ceilDiv_self _ h
    have h2 : ∀ p, scaleProduct day meal false p = p := by
      intro p
      cases p
      simp [scaleProduct, h1]
    rw [Rich.getRequiredProductsForMeal]
    have h3 : List.map (scaleProduct day meal false) ingredients =
        List.map id ingredients :=
      List.map_congr_left fun p _ => h2 p
    rw [h3, List.map_id]

theorem getRequiredProductsForMeal_scales_by_ceil_witness :
    0 < mealFx.NumberOfPeople ∧
    (Rich.getRequiredProductsForMeal mondayFx mealFx [productFxFree] true =
      [productFxFree].map fun p =>
        { p with Quantity := p.Quantity *
            ⌈((if true then mondayFx.NumberOfPeople +
                 mondayFx.NumberOfPeopleLeftovers
               else mealFx.NumberOfPeople : Nat) : ℚ) /
              (mealFx.NumberOfPeople : ℚ)⌉₊ }) ∧
    (Strict.getRequiredProductsForMeal mondayFx mealFx [productFxFree] true =
      ([productFxFree].filter fun p => p.Meal == mealFx.Slug).map fun p =>
        { p with Quantity := p.Quantity *
            ⌈((if true then mondayFx.NumberOfPeople +
                 mondayFx.NumberOfPeopleLeftovers
               else mealFx.NumberOfPeople : Nat) : ℚ) /
              (mealFx.NumberOfPeople : ℚ)⌉₊ }) ∧
    (true = false → Rich.getRequiredProductsForMeal mondayFx mealFx
      [productFxFree] true = [productFxFree]) :=
  ⟨by decide,
    getRequiredProductsForMeal_scales_by_ceil mondayFx mealFx [productFxFree]
      [productFxFree] true (by decide)⟩

/-- C5 counterexample: the claim asserts the zero-shelf-life escape for
both variants, but the strict variant has none: an ingredient with
`MaxShelfLifeInDays = 0` evaluated on a Thursday (`getDay` 4) fails. -/
theorem strict_shelfLife_zero_violates_claim :
    Strict.isProductShelfLifeValid [productFxFree] 4 = false ∧
    productFxFree.MaxShelfLifeInDays = 0 ∧
    Rich.isProductShelfLifeValid [productFxFree] 4 = true := by
  refine ⟨by decide, by decide, by decide⟩

/-- C5 (amended): the rich variant's `isProductShelfLifeValid` holds iff
every ingredient has a zero (absent) `MaxShelfLifeInDays` or one at least
`isoWeekdayNumber(date) - 2`; the strict variant requires the inequality
of every ingredient, with no zero escape. -/
theorem isProductShelfLifeValid_characterization (ps : List Product)
    (getDay : Nat) :
    (Rich.isProductShelfLifeValid ps getDay = true ↔
      ∀ p ∈ ps, p.MaxShelfLifeInDays = 0 ∨
        isoWeekdayNumber getDay - 2 ≤ (p.MaxShelfLifeInDays : Int)) ∧
    (Strict.isProductShelfLifeValid ps getDay = true ↔
      ∀ p ∈ ps, isoWeekdayNumber getDay - 2 ≤ (p.MaxShelfLifeInDays : Int)) := by
  have hiso : ((if getDay = 0 then 7 else getDay : Nat) : Int) =
      isoWeekdayNumber getDay := by
    unfold isoWeekdayNumber
    split <;> simp
  constructor
  · simp only [Rich.isProductShelfLifeValid, List.all_eq_true, Bool.or_eq_true,
      beq_iff_eq, decide_eq_true_eq, ge_iff_le, hiso]
  · simp only [Strict.isProductShelfLifeValid, List.all_eq_true,
      decide_eq_true_eq, ge_iff_le, hiso]

theorem isProductShelfLifeValid_characterization_witness :
    (Rich.isProductShelfLifeValid [productFxFree] 4 = true ↔
      ∀ p ∈ [productFxFree], p.MaxShelfLifeInDays = 0 ∨
        isoWeekdayNumber 4 - 2 ≤ (p.MaxShelfLifeInDays : Int)) ∧
    (Strict.isProductShelfLifeValid [productFxFree] 4 = true ↔
      ∀ p ∈ [productFxFree], isoWeekdayNumber 4 - 2 ≤
        (p.MaxShelfLifeInDays : Int)) :=
  isProductShelfLifeValid_characterization [productFxFree] 4

/-- C7: the rich variant's discount predicate holds iff every
bonus-required ingredient's ID is in the bonus list; in particular it
holds vacuously when no ingredient is bonus-required. -/
theorem isRequiredProductDiscountsValid_iff (ingredients : List Product)
    (bonusProductIds : List String) :
    (Rich.isRequiredProductDiscountsValid ingredients bonusProductIds = true ↔
      ∀ p ∈ ingredients, p.IsBonusRequired = true →
        p.ID ∈ bonusProductIds) ∧
    ((∀ p ∈ ingredients, p.IsBonusRequired = false) →
      Rich.isRequiredProductDiscountsValid ingredients bonusProductIds = true) := by
  have hmain : Rich.isRequiredProductDiscountsValid ingredients bonusProductIds
      = true ↔ ∀ p ∈ ingredients, p.IsBonusRequired = true →
        p.ID ∈ bonusProductIds := by
    simp only [Rich.isRequiredProductDiscountsValid, List.all_eq_true,
      List.mem_filter, and_imp, List.elem_iff]
  refine ⟨hmain, ?_⟩
  intro h
  rw [hmain]
  intro p hp hb
  rw [h p hp] at hb
  cases hb

theorem isRequiredProductDiscountsValid_iff_witness :
    (Rich.isRequiredProductDiscountsValid [productFxFree] [] = true ↔
      ∀ p ∈ [productFxFree], p.IsBonusRequired = true → p.ID ∈ ([] : List String)) ∧
    ((∀ p ∈ [productFxFree], p.IsBonusRequired = false) →
      Rich.isRequiredProductDiscountsValid [productFxFree] [] = true) :=
  isRequiredProductDiscountsValid_iff [productFxFree] []

/-- C8: the quantity resolver changes only the `Quantity` field — erasing
quantities on both sides yields the input list back, the length (and so
the order and pairing) is preserved, and as a pure function it returns
identical output on identical input. -/
theorem getRequiredProductsForMeal_frame (day : WeekDay) (meal : Meal)
    (ingredients : List Product) (f : Bool) :
    (Rich.getRequiredProductsForMeal day meal ingredients f).map eraseQuantity =
      ingredients.map eraseQuantity ∧
    (Rich.getRequiredProductsForMeal day meal ingredients f).length =
      ingredients.length ∧
    Rich.getRequiredProductsForMeal day meal ingredients f =
      Rich.getRequiredProductsForMeal day meal ingredients f := by
  refine ⟨?_, ?_, rfl⟩
  · rw [Rich.getRequiredProductsForMeal, List.map_map]
    exact List.map_congr_left fun p _ => eraseQuantity_scaleProduct day meal f p
  · rw [Rich.getRequiredProductsForMeal, List.length_map]

/-- C10: `sortWeekByPreparationTime` returns a permutation of the week,
sorted ascending by `MaxPreparationTime`, and `matchMeals` applied to the
sorted week (as the entry point does) processes the days in exactly that
sorted order, one positional plan entry per sorted day. -/
theorem sortWeekByPreparationTime_sorted_perm (week : List WeekDay)
    (meals : List Meal) (bonusProductIds : List String)
    (products : List Product) :
    (sortWeekByPreparationTime week).Perm week ∧
    List.Sorted (byKeyLe fun d => d.MaxPreparationTime)
      (sortWeekByPreparationTime week) ∧
    Strict.matchMeals meals bonusProductIds products
        (sortWeekByPreparationTime week) =
      (sortWeekByPreparationTime week).map
        (Strict.matchMealsDay meals bonusProductIds products) :=
  ⟨List.perm_insertionSort _ week, List.sorted_insertionSort _ week, rfl⟩

theorem createShoppingList_params (ps : List Product) (u : URLModel) :
    ps.foldl (fun (u : URLModel) p =>
        u.appendParam "p" (p.ID ++ ":" ++ toString p.Quantity)) u =
      { base := u.base,
        searchParams := u.searchParams ++
          ps.map fun p => ("p", p.ID ++ ":" ++ toString p.Quantity) } := by
  induction ps generalizing u with
  | nil => simp
  | cons p ps ih =>
    rw [List.foldl_cons, ih]
    simp [URLModel.appendParam]

/-- C9: `createShoppingList` produces the fixed
`https://www.ah.nl/mijnlijst/add-multiple` base and, in input order, one
`p` query parameter per required product whose value encodes the pair
`ID:Quantity` (form-url-encoded, so `:` appears as `%3A`). -/
theorem createShoppingList_encodes_pairs (ps : List Product) :
    Rich.createShoppingList ps =
      "https://www.ah.nl/mijnlijst/add-multiple" ++
        (if ps.isEmpty then ""
         else "?" ++ String.intercalate "&"
            (ps.map fun p =>
              "p=" ++ formUrlEncode (p.ID ++ ":" ++ toString p.Quantity))) := by
  rw [Rich.createShoppingList, createShoppingList_params]
  cases ps with
  | nil => simp [URLModel.render]
  | cons p ps =>
    rw [URLModel.render]
    simp only [List.nil_append, List.isEmpty_cons, Bool.false_eq_true,
      if_false, List.map_cons, List.map_map]
    rfl

theorem pairedMeals_empty_catalog (meals : List Meal)
    (x : Meal × List Product) (hx : x ∈ Rich.pairedMeals meals []) :
    x.2 = [] := by
  obtain ⟨meal, _, rfl⟩ := List.mem_map.mp hx
  rfl

theorem dayCandidates_empty_catalog (meals : List Meal)
    (bonusProductIds : List String) (day : WeekDay) (plan : Rich.Plan) :
    Rich.dayCandidates meals bonusProductIds [] day plan = [] := by
  rw [Rich.dayCandidates]
  have hfil : (List.insertionSort (byKeyGe fun x => x.1.PreparationTimeMinutes)
      (Rich.pairedMeals meals [])).filter
        (Rich.survivesDay bonusProductIds day plan) = [] := by
    rw [List.filter_eq_nil_iff]
    intro x hx
    have hx2 : x.2 = [] :=
      pairedMeals_empty_catalog meals x ((List.mem_insertionSort _).mp hx)
    simp [Rich.survivesDay, Rich.hasIngredients, hx2]
  rw [hfil]
  rfl

theorem rankMealsDay_empty_catalog (meals : List Meal)
    (bonusProductIds : List String) (day : WeekDay) (plan : Rich.Plan)
    (randIndex : Nat) :
    Rich.rankMealsDay meals bonusProductIds [] day plan randIndex = none := by
  rw [Rich.rankMealsDay, dayCandidates_empty_catalog]

theorem planSet_allNone (plan : Rich.Plan) (k : String)
    (h : plan.all (fun e => e.2.isNone) = true) :
    (Rich.planSet plan k none).all (fun e => e.2.isNone) = true := by
  induction plan with
  | nil => rfl
  | cons e rest ih =>
    obtain ⟨k0, v0⟩ := e
    rw [Rich.planSet]
    by_cases hk : k0 = k
    · rw [if_pos hk]
      simp only [List.all_cons, Bool.and_eq_true] at h ⊢
      exact ⟨rfl, h.2⟩
    · rw [if_neg hk]
      simp only [List.all_cons, Bool.and_eq_true] at h ⊢
      exact ⟨h.1, ih h.2⟩

theorem rankMealsGo_empty_catalog_allNone (meals : List Meal)
    (bonusProductIds : List String) (week : List WeekDay) :
    ∀ (plan : Rich.Plan) (rand : Nat → Nat) (i : Nat),
      plan.all (fun e => e.2.isNone) = true →
      (Rich.rankMealsGo meals bonusProductIds [] week plan rand i).all
        (fun e => e.2.isNone) = true := by
  induction week with
  | nil =>
    intro plan rand i h
    exact h
  | cons day rest ih =>
    intro plan rand i h
    rw [Rich.rankMealsGo, rankMealsDay_empty_catalog]
    exact ih _ rand (i + 1) (planSet_allNone plan day.Day h)

/-- C2 counterexample: with an *empty discount set* but a non-empty
catalog, `rankMeals` can still commit a meal (any meal without
bonus-required ingredients survives and is chosen at score 0), so the
returned plan is not all-null. -/
theorem rankMeals_empty_bonus_commits_meal :
    (Rich.rankMeals [mealFx] [] [productFxFree] [mondayFx] (fun _ => 0)).all
      (fun e => e.2.isNone) = false := by
  decide

/-- C2 (amended): with an empty product catalog, every entry of the plan
returned by `rankMeals` is null, for every meal list, discount set, week
and random source. -/
theorem rankMeals_empty_catalog_all_null (meals : List Meal)
    (bonusProductIds : List String) (weekPlan : List WeekDay)
    (rand : Nat → Nat) :
    (Rich.rankMeals meals bonusProductIds [] weekPlan rand).all
      (fun e => e.2.isNone) = true :=
  rankMealsGo_empty_catalog_allNone meals bonusProductIds weekPlan [] rand 0 rfl

theorem planSlugs_eq (plan : Rich.Plan) :
    planSlugs plan = (plan.filterMap Prod.snd).map fun rm => rm.meal.Slug := by
  induction plan with
  | nil => rfl
  | cons e rest ih =>
    obtain ⟨k0, v0⟩ := e
    cases v0 <;> simp [planSlugs, List.filterMap_cons, ih]

theorem isNotInPlan_iff (m : Meal) (plan : Rich.Plan) :
    Rich.isNotInPlan m plan = true ↔ m.Slug ∉ planSlugs plan := by
  rw [planSlugs_eq]
  simp only [Rich.isNotInPlan, Bool.not_eq_true', List.any_eq_false,
    beq_iff_eq, List.mem_map, not_exists, not_and]

theorem mem_planSlugs_planSet (plan : Rich.Plan) (k : String)
    (v : Option Rich.RankedMeal) (s : String)
    (h : s ∈ planSlugs (Rich.planSet plan k v)) :
    s ∈ planSlugs plan ∨ ∃ rm, v = some rm ∧ s = rm.meal.Slug := by
  induction plan with
  | nil =>
    cases v with
    | none => cases h
    | some rm =>
      right
      exact ⟨rm, rfl, (List.mem_singleton.mp h)⟩
  | cons e rest ih =>
    obtain ⟨k0, v0⟩ := e
    rw [Rich.planSet] at h
    by_cases hk : k0 = k
    · rw [if_pos hk] at h
      cases v with
      | none =>
        refine Or.inl ?_
        cases v0 with
        | none => exact h
        | some rm0 => exact List.mem_cons_of_mem _ h
      | some rm =>
        rcases List.mem_cons.mp h with h1 | h1
        · exact Or.inr ⟨rm, rfl, h1⟩
        · cases v0 <;> simp [planSlugs, h1]
    · rw [if_neg hk] at h
      cases v0 with
      | none => exact ih h
      | some rm0 =>
        rcases List.mem_cons.mp h with h1 | h1
        · exact Or.inl (by simp [planSlugs, h1])
        · rcases ih h1 with h2 | h2
          · exact Or.inl (by simp [planSlugs, h2])
          · exact Or.inr h2

theorem nodup_planSlugs_planSet (plan : Rich.Plan) (k : String)
    (v : Option Rich.RankedMeal) (hnd : (planSlugs plan).Nodup)
    (hv : ∀ rm, v = some rm → rm.meal.Slug ∉ planSlugs plan) :
    (planSlugs (Rich.planSet plan k v)).Nodup := by
  induction plan with
  | nil =>
    cases v with
    | none => exact List.nodup_nil
    | some rm => exact List.nodup_singleton _
  | cons e rest ih =>
    obtain ⟨k0, v0⟩ := e
    rw [Rich.planSet]
    by_cases hk : k0 = k
    · rw [if_pos hk]
      cases v with
      | none =>
        cases v0 with
        | none => exact hnd
        | some rm0 => exact ((List.nodup_cons.mp (by simpa [planSlugs] using hnd)).2)
      | some rm =>
        have hrest : (planSlugs rest).Nodup := by
          cases v0 with
          | none => exact hnd
          | some rm0 => exact (List.nodup_cons.mp (by simpa [planSlugs] using hnd)).2
        have hfresh : rm.meal.Slug ∉ planSlugs rest := by
          intro hmem
          apply hv rm rfl
          cases v0 <;> simp [planSlugs, hmem]
        simpa [planSlugs] using List.nodup_cons.mpr ⟨hfresh, hrest⟩
    · rw [if_neg hk]
      cases v0 with
      | none =>
        exact ih hnd fun rm hrm => hv rm hrm
      | some rm0 =>
        have hnd2 := List.nodup_cons.mp (by simpa [planSlugs] using hnd)
        have htail : (planSlugs (Rich.planSet rest k v)).Nodup :=
          ih hnd2.2 fun rm hrm hmem =>
            hv rm hrm (by simp [planSlugs, hmem])
        have hhead : rm0.meal.Slug ∉ planSlugs (Rich.planSet rest k v) := by
          intro hmem
          rcases mem_planSlugs_planSet rest k v _ hmem with h1 | ⟨rm, hrm, hs⟩
          · exact hnd2.1 h1
          · exact hv rm hrm (by simp [planSlugs, hs])
        simpa [planSlugs] using List.nodup_cons.mpr ⟨hhead, htail⟩

theorem dayCandidates_mem (meals : List Meal) (bonusProductIds : List String)
    (products : List Product) (day : WeekDay) (plan : Rich.Plan)
    (x : Rich.RankedMeal × Nat)
    (hx : x ∈ Rich.dayCandidates meals bonusProductIds products day plan) :
    ∃ y, Rich.survivesDay bonusProductIds day plan y = true ∧
      x = Rich.scoreEntry bonusProductIds day y := by
  rw [Rich.dayCandidates] at hx
  have hx1 := (List.mem_insertionSort _).mp hx
  obtain ⟨y, hy, rfl⟩ := List.mem_map.mp hx1
  exact ⟨y, (List.mem_filter.mp hy).2, rfl⟩

theorem rankMealsDay_some (meals : List Meal) (bonusProductIds : List String)
    (products : List Product) (day : WeekDay) (plan : Rich.Plan)
    (randIndex : Nat) (rm : Rich.RankedMeal)
    (h : Rich.rankMealsDay meals bonusProductIds products day plan randIndex =
      some rm) :
    ∃ s, (rm, s) ∈ Rich.dayCandidates meals bonusProductIds products day plan := by
  rw [Rich.rankMealsDay] at h
  cases hc : Rich.dayCandidates meals bonusProductIds products day plan with
  | nil => rw [hc] at h; cases h
  | cons top rest =>
    rw [hc] at h
    have h2 : (if 0 < top.2 then some top.1
        else some (((top :: rest).get ⟨randIndex % (top :: rest).length,
          Nat.mod_lt _ (Nat.succ_pos _)⟩).1)) = some rm := h
    by_cases htop : 0 < top.2
    · rw [if_pos htop] at h2
      refine ⟨top.2, ?_⟩
      have h3 : rm = top.1 := (Option.some_injective _ h2).symm
      rw [h3]
      exact List.mem_cons_self _ _
    · rw [if_neg htop] at h2
      have hz := Option.some_injective _ h2
      refine ⟨((top :: rest).get ⟨randIndex % (top :: rest).length,
          Nat.mod_lt _ (Nat.succ_pos _)⟩).2, ?_⟩
      rw [← hz]
      exact List.get_mem ..

theorem rankMealsDay_fresh (meals : List Meal) (bonusProductIds : List String)
    (products : List Product) (day : WeekDay) (plan : Rich.Plan)
    (randIndex : Nat) (rm : Rich.RankedMeal)
    (h : Rich.rankMealsDay meals bonusProductIds products day plan randIndex =
      some rm) :
    rm.meal.Slug ∉ planSlugs plan := by
  obtain ⟨s, hmem⟩ := rankMealsDay_some meals bonusProductIds products day plan
    randIndex rm h
  obtain ⟨y, hy, heq⟩ := dayCandidates_mem meals bonusProductIds products day
    plan (rm, s) hmem
  have hmeal : rm.meal = y.1 := by
    have h4 : rm = (Rich.scoreEntry bonusProductIds day y).1 :=
      congrArg Prod.fst heq
    rw [h4]
    rfl
  have hplan : Rich.isNotInPlan y.1 plan = true := by
    rw [Rich.survivesDay] at hy
    simp only [Bool.and_eq_true] at hy
    exact hy.1.1.1.1.2
  rw [hmeal]
  exact (isNotInPlan_iff y.1 plan).mp hplan

theorem rankMealsGo_slug_nodup (meals : List Meal)
    (bonusProductIds : List String) (products : List Product) :
    ∀ (week : List WeekDay) (plan : Rich.Plan) (rand : Nat → Nat) (i : Nat),
      (planSlugs plan).Nodup →
      (planSlugs (Rich.rankMealsGo meals bonusProductIds products week plan
        rand i)).Nodup := by
  intro week
  induction week with
  | nil => intro plan rand i h; exact h
  | cons day rest ih =>
    intro plan rand i h
    rw [Rich.rankMealsGo]
    refine ih _ rand (i + 1) ?_
    refine nodup_planSlugs_planSet plan day.Day _ h ?_
    intro rm hrm
    exact rankMealsDay_fresh meals bonusProductIds products day plan
      (rand i) rm hrm

/-- C3: in the rich variant, no meal slug ever appears in two different
non-null entries of the returned plan, for every input and every random
source: slug uniqueness is maintained through every day's commitment. -/
theorem rankMeals_slug_unique (meals : List Meal)
    (bonusProductIds : List String) (products : List Product)
    (weekPlan : List WeekDay) (rand : Nat → Nat) :
    (planSlugs (Rich.rankMeals meals bonusProductIds products weekPlan
      rand)).Nodup :=
  rankMealsGo_slug_nodup meals bonusProductIds products weekPlan [] rand 0
    List.nodup_nil

theorem foldr_max_le (l : List Nat) (m : Nat) (h : ∀ a ∈ l, a ≤ m) :
    l.foldr max 0 ≤ m := by
  induction l with
  | nil => exact Nat.zero_le m
  | cons a l ih =>
    rw [List.foldr_cons]
    exact max_le (h a (List.mem_cons_self a l))
      (ih fun b hb => h b (List.mem_cons_of_mem _ hb))

theorem le_foldr_max (l : List Nat) (a : Nat) (h : a ∈ l) :
    a ≤ l.foldr max 0 := by
  induction l with
  | nil => cases h
  | cons b l ih =>
    rw [List.foldr_cons]
    rcases List.mem_cons.mp h with h1 | h1
    · rw [h1]
      exact le_max_left _ _
    · exact le_trans (ih h1) (le_max_right _ _)

theorem sorted_dayCandidates (meals : List Meal)
    (bonusProductIds : List String) (products : List Product) (day : WeekDay)
    (plan : Rich.Plan) :
    List.Sorted (byKeyGe fun x : Rich.RankedMeal × Nat => x.2)
      (Rich.dayCandidates meals bonusProductIds products day plan) := by
  rw [Rich.dayCandidates]
  exact List.sorted_insertionSort _ _

theorem head_eq_maxScore (top : Rich.RankedMeal × Nat)
    (rest : List (Rich.RankedMeal × Nat))
    (hs : List.Sorted (byKeyGe fun x : Rich.RankedMeal × Nat => x.2)
      (top :: rest)) :
    top.2 = maxScore (top :: rest) := by
  apply le_antisymm
  · exact le_foldr_max _ _ (List.mem_map_of_mem Prod.snd
      (List.mem_cons_self top rest))
  · apply foldr_max_le
    intro a ha
    obtain ⟨x, hx, rfl⟩ := List.mem_map.mp ha
    rcases List.mem_cons.mp hx with h1 | h1
    · rw [h1]
    · exact List.rel_of_sorted_cons hs x h1

/-- C6: per day, `rankMeals` commits nothing when no candidate survives
filtering; a committed meal is always one of the scored survivors and,
when the top score is positive, one achieving the maximal score; when the
top score is zero, every survivor (not only the tied ones) is the one
committed under some random draw. -/
theorem rankMealsDay_selection_policy (meals : List Meal)
    (bonusProductIds : List String) (products : List Product) (day : WeekDay)
    (plan : Rich.Plan) :
    (Rich.dayCandidates meals bonusProductIds products day plan = [] →
      ∀ r, Rich.rankMealsDay meals bonusProductIds products day plan r =
        none) ∧
    (∀ r rm, Rich.rankMealsDay meals bonusProductIds products day plan r =
        some rm →
      ∃ s, (rm, s) ∈ Rich.dayCandidates meals bonusProductIds products day
          plan ∧
        (0 < maxScore (Rich.dayCandidates meals bonusProductIds products day
            plan) →
          s = maxScore (Rich.dayCandidates meals bonusProductIds products day
            plan))) ∧
    (maxScore (Rich.dayCandidates meals bonusProductIds products day plan) =
        0 →
      ∀ i, i < (Rich.dayCandidates meals bonusProductIds products day
          plan).length →
        ∃ x, (Rich.dayCandidates meals bonusProductIds products day
            plan).get? i = some x ∧
          Rich.rankMealsDay meals bonusProductIds products day plan i =
            some x.1) := by
  refine ⟨?_, ?_, ?_⟩
  · intro hc r
    rw [Rich.rankMealsDay, hc]
  · intro r rm h
    rw [Rich.rankMealsDay] at h
    have hs := sorted_dayCandidates meals bonusProductIds products day plan
    cases hc : Rich.dayCandidates meals bonusProductIds products day plan with
    | nil => rw [hc] at h; cases h
    | cons top rest =>
      rw [hc] at h hs
      have hmax : top.2 = maxScore (top :: rest) := head_eq_maxScore top rest hs
      have h2 : (if 0 < top.2 then some top.1
          else some (((top :: rest).get ⟨r % (top :: rest).length,
            Nat.mod_lt _ (Nat.succ_pos _)⟩).1)) = some rm := h
      by_cases htop : 0 < top.2
      · rw [if_pos htop] at h2
        refine ⟨top.2, ?_, fun _ => hmax⟩
        have h3 : rm = top.1 := (Option.some_injective _ h2).symm
        rw [h3]
        exact List.mem_cons_self _ _
      · rw [if_neg htop] at h2
        have hz := Option.some_injective _ h2
        refine ⟨((top :: rest).get ⟨r % (top :: rest).length,
            Nat.mod_lt _ (Nat.succ_pos _)⟩).2, ?_, ?_⟩
        · rw [← hz]
          exact List.get_mem ..
        · intro hpos
          rw [← hmax] at hpos
          exact absurd hpos htop
  · intro hmax i hi
    rw [Rich.rankMealsDay]
    cases hc : Rich.dayCandidates meals bonusProductIds products day plan with
    | nil =>
      rw [hc] at hi
      cases hi
    | cons top rest =>
      rw [hc] at hi hmax
      have htop : ¬ 0 < top.2 := by
        have h1 : top.2 ≤ maxScore (top :: rest) :=
          le_foldr_max _ _ (List.mem_map_of_mem Prod.snd
            (List.mem_cons_self top rest))
        omega
      have hfin : (⟨i % (top :: rest).length,
          Nat.mod_lt _ (Nat.succ_pos _)⟩ : Fin (top :: rest).length) =
          ⟨i, hi⟩ :=
        Fin.ext (Nat.mod_eq_of_lt hi)
      refine ⟨(top :: rest).get ⟨i, hi⟩, (List.get?_eq_get hi).symm ▸ rfl, ?_⟩
      show (if 0 < top.2 then some top.1
          else some (((top :: rest).get ⟨i % (top :: rest).length,
            Nat.mod_lt _ (Nat.succ_pos _)⟩).1)) =
        some (((top :: rest).get ⟨i, hi⟩).1)
      rw [if_neg htop, hfin]

theorem rankMealsDay_selection_policy_witness :
    Rich.rankMealsDay [] ([] : List String) [] mondayFx [] 0 = none :=
  (rankMealsDay_selection_policy [] [] [] mondayFx []).1 (by decide) 0
